import Mathlib

/-!
# Verification of the service-chatbot survey analysis scripts

Shallow embedding of the data-transformation core of the repository
(`scripts/descriptive_stats.py`, `scripts/segment_analysis.py`,
`scripts/comparison_analysis.py`, `scripts/stat_tests.py`).

Modelling conventions:
* A numeric column after `pd.to_numeric(col, errors='coerce')` is a
  `List (Option ℚ)`; `none` is a missing value (NaN), `.dropna()` is
  `List.filterMap id`.
* Exact rational arithmetic stands in for IEEE doubles.  A non-finite float
  (the NaN produced by a zero denominator) is `none : Option ℚ`.
* `np.sqrt` and the scipy test statistics are external collaborators; they are
  passed in as explicit function arguments, never axiomatised.
* Python `round(x, d)` is modelled by exact rational rounding to `d` decimal
  digits.  Any tie-breaking rule (Python rounds the nearest binary double to
  even) satisfies the half-of-last-digit error bound, which is all the proofs
  below use.
-/

/-- Python `round(x, 1)`: round to one decimal digit. -/
def round1 (q : ℚ) : ℚ := ((round (q * 10) : ℤ) : ℚ) / 10

/-- Python `round(x, 2)`: round to two decimal digits. -/
def round2 (q : ℚ) : ℚ := ((round (q * 100) : ℤ) : ℚ) / 100

/-- Python `round(x, 3)`: round to three decimal digits. -/
def round3 (q : ℚ) : ℚ := ((round (q * 1000) : ℤ) : ℚ) / 1000

/-- numpy / pandas scalar division.  A zero denominator does not raise: it
produces a non-finite float (NaN for `0/0`, ±inf otherwise), modelled as
`none`. -/
def npDiv (a b : ℚ) : Option ℚ := if b = 0 then none else some (a / b)

/-- Top-2-box percentage of one A301 variable over a filtered respondent
subset.  From `segment_analysis.py` line 102 and `comparison_analysis.py`
line 78:
`pct = vals.isin([1, 2]).sum() / len(vals) * 100 if len(vals) > 0 else 0`
where `vals = pd.to_numeric(sub[v], errors='coerce').dropna()`. -/
def top2pct (xs : List (Option ℚ)) : ℚ :=
  let vals := xs.filterMap id
  if vals.length > 0 then
    ((vals.countP (fun v => v == 1 || v == 2) : ℕ) : ℚ) / (vals.length : ℚ) * 100
  else 0

/-- Scan for the first occurrence of the separator sequence `": "`; return the
suffix after it, or `none` when the string does not contain the separator.
This is `opt.split(': ', 1)[1]` guarded by `': ' in opt`
(`segment_analysis.py` line 33, `comparison_analysis.py` lines 37-39,
`descriptive_stats.py` lines 43-44). -/
def afterSep : List Char → Option (List Char)
  | [] => none
  | c :: rest =>
    if c = ':' ∧ rest.head? = some ' ' then some rest.tail
    else afterSep rest

/-- Number of positions at which the separator `": "` starts. -/
def countSep : List Char → ℕ
  | [] => 0
  | c :: rest => (if c = ':' ∧ rest.head? = some ' ' then 1 else 0) + countSep rest

/-- Label normalization: strip the group prefix up to the first `": "`,
otherwise return the label unchanged (`normalize_label` in
`segment_analysis.py`, `comparison_analysis.py`, `descriptive_stats.py`). -/
def normalize_label (s : List Char) : List Char :=
  match afterSep s with
  | some r => r
  | none => s

/-- The string `str(float('nan'))` that pandas' `astype(str)` writes into a
cell holding a missing value. -/
def nanLabel : String := "nan"

/-- Helper for `uniqueFirst`: scan the column, keeping each value the first
time it is seen. -/
def uniqueFirstAux (seen : List String) : List String → List String
  | [] => []
  | x :: xs =>
    if x ∈ seen then uniqueFirstAux seen xs
    else x :: uniqueFirstAux (x :: seen) xs

/-- pandas `Series.unique()`: the distinct values of a column, in order of
first appearance. -/
def uniqueFirst (l : List String) : List String := uniqueFirstAux [] l

/-- The observed categories of a segment column as iterated by
`stat_tests.py` line 46: `cats = users[seg].dropna().unique()` (the column was
first cast with `astype(str)`, so `dropna` removes nothing): first-appearance
order, not sorted. -/
def catsStatTests (col : List String) : List String := uniqueFirst col

/-- The observed categories of a segment column as iterated by
`segment_analysis.py` line 94: `sorted(df[seg + '_lbl'].unique())`. -/
def catsSegment (col : List String) : List String :=
  List.insertionSort (· ≤ ·) (uniqueFirst col)

/-- pandas `col.astype(str)` on a column that may hold missing values: a
missing value becomes the literal string `"nan"`
(`stat_tests.py` line 45, `segment_analysis.py` line 91). -/
def astype_str (col : List (Option String)) : List String :=
  col.map (fun c => c.getD nanLabel)

/-- `segment_analysis.py` line 92:
`df[seg].map(value_map.get(seg, {})).fillna(df[seg])` — translate each raw
segment value through the codebook value map, keeping the raw value where the
map has no entry. -/
def mapFillna (vm : String → Option String) (col : List String) : List String :=
  col.map (fun s => (vm s).getD s)

/-- The external statistical collaborators of `stat_tests.py`:
`np.sqrt`, `scipy.stats.mannwhitneyu` and `scipy.stats.kruskal` (each
returning a (statistic, p-value) pair) and the p-value of
`scipy.stats.chi2_contingency`.  The engine is verified for every choice of
these functions. -/
structure TestFns where
  sqrt : ℚ → ℚ
  mwu : List ℚ → List ℚ → ℚ × ℚ
  kw : List (List ℚ) → ℚ × ℚ
  chiP : List (List ℚ) → ℚ

/-- Mann-Whitney effect size, `stat_tests.py` lines 59-65:
`z = (u - n1*n2/2) / sqrt(n1*n2*(n1+n2+1)/12)`, `r = abs(z) / sqrt(n1+n2)`. -/
def mwu_effect_r (s : ℚ → ℚ) (u : ℚ) (n1 n2 : ℕ) : ℚ :=
  let mean_u : ℚ := (n1 : ℚ) * (n2 : ℚ) / 2
  let sd_u : ℚ := s ((n1 : ℚ) * (n2 : ℚ) * ((n1 : ℚ) + (n2 : ℚ) + 1) / 12)
  let z : ℚ := (u - mean_u) / sd_u
  |z| / s ((n1 : ℚ) + (n2 : ℚ))

/-- The spec's formula for the Mann-Whitney effect size, written exactly as
in the specification: `r = |z|/sqrt(n1+n2)` with
`z = (U - n1*n2/2) / sqrt(n1*n2*(n1+n2+1)/12)`. -/
def mwu_effect_r_spec (s : ℚ → ℚ) (u : ℚ) (n1 n2 : ℕ) : ℚ :=
  |(u - (n1 : ℚ) * (n2 : ℚ) / 2) /
      s ((n1 : ℚ) * (n2 : ℚ) * ((n1 : ℚ) + (n2 : ℚ) + 1) / 12)| /
    s ((n1 : ℚ) + (n2 : ℚ))

/-- Kruskal-Wallis effect size, `stat_tests.py` line 74:
`eta2 = (stat - k + 1)/(n - k) if n > k else np.nan`; the NaN is `none`. -/
def eta_sq (h : ℚ) (k n : ℕ) : Option ℚ :=
  if n > k then some ((h - (k : ℚ) + 1) / ((n : ℚ) - (k : ℚ))) else none

/-- One output row of the Statistical Test Engine (columns `Test`, `Stat`,
`p-value` and the effect-size column). -/
structure Row where
  testName : String
  stat : ℚ
  pval : ℚ
  effect : Option ℚ

/-- Number of categories of a segment that have at least one non-missing
value for the variable under test:
`valid = [d for d in data_by_cat if len(d) > 0]` (`stat_tests.py` line 52). -/
def nonEmptyCats (d : List (List ℚ)) : ℕ :=
  (d.filter (fun g => g.length > 0)).length

/-- The A301 rank-test branch of `stat_tests.py` lines 50-76 for one
(segment, variable) pair.  `dataByCat` holds, for each observed category of
the segment, the non-missing coerced values of the variable.  The branch on
`len(cats) == 2` is on the number of observed categories, i.e.
`dataByCat.length`. -/
def rank_rows (F : TestFns) (dataByCat : List (List ℚ)) : List Row :=
  let valid := dataByCat.filter (fun g => g.length > 0)
  if valid.length < 2 then []
  else if dataByCat.length = 2 then
    let g1 := valid.getD 0 []
    let g2 := valid.getD 1 []
    let sp := F.mwu g1 g2
    [{ testName := "Mann-Whitney-U", stat := round2 sp.1, pval := round3 sp.2,
       effect := some (round3 (mwu_effect_r F.sqrt sp.1 g1.length g2.length)) }]
  else
    let sp := F.kw valid
    [{ testName := "Kruskal-Wallis", stat := round2 sp.1, pval := round3 sp.2,
       effect := (eta_sq sp.1 valid.length ((valid.map List.length).sum)).map round3 }]

/-- Column sums of a (rectangular) contingency table. -/
def colSums : List (List ℚ) → List ℚ
  | [] => []
  | [r] => r
  | r :: rs => List.zipWith (· + ·) r (colSums rs)

/-- Grand total of a contingency table (`confusion_matrix.sum().sum()`). -/
def tableTotal (tab : List (List ℚ)) : ℚ := (tab.map List.sum).sum

/-- Number of rows of the table (`shape[0]`). -/
def nrows (tab : List (List ℚ)) : ℕ := tab.length

/-- Number of columns of the table (`shape[1]`). -/
def ncols (tab : List (List ℚ)) : ℕ := (tab.headD []).length

/-- Pearson chi-square statistic without continuity correction, the value
computed by `scipy.stats.chi2_contingency(tab, correction=False)[0]`:
`chi2 = Σ (O - E)² / E` with expected counts `E = rowsum * colsum / n`. -/
def chiSq (tab : List (List ℚ)) : ℚ :=
  let n := tableTotal tab
  let cs := colSums tab
  (tab.map (fun row =>
    (List.zipWith (fun o c =>
      let e := row.sum * c / n
      (o - e) * (o - e) / e) row cs).sum)).sum

/-- `cramers_v` of `stat_tests.py` lines 16-22:
`phi2 = chi2 / n; r, k = shape; sqrt(phi2 / min(k-1, r-1))`. -/
def cramers_v (s : ℚ → ℚ) (tab : List (List ℚ)) : ℚ :=
  let chi2 := chiSq tab
  let n := tableTotal tab
  let phi2 := chi2 / n
  s (phi2 / ((min (ncols tab - 1) (nrows tab - 1) : ℕ) : ℚ))

/-- The spec's formula for Cramér's V, written exactly as in the
specification: `V = sqrt((chi2/n) / min(rows-1, cols-1))`. -/
def cramers_v_spec_formula (s : ℚ → ℚ) (tab : List (List ℚ)) : ℚ :=
  s ((chiSq tab / tableTotal tab) / ((min (nrows tab - 1) (ncols tab - 1) : ℕ) : ℚ))

/-- The A305 chi-square branch of `stat_tests.py` lines 78-86 for one
(segment, variable) pair: skip the pair when the crosstab has fewer than two
rows or fewer than two columns, otherwise one result row. -/
def chi_rows (F : TestFns) (tab : List (List ℚ)) : List Row :=
  if nrows tab < 2 ∨ ncols tab < 2 then []
  else
    [{ testName := "Chi-Quadrat", stat := round2 (chiSq tab),
       pval := round3 (F.chiP tab),
       effect := some (round3 (cramers_v F.sqrt tab)) }]

/-- The per-pair input of the engine's loop: either the per-category rank
data of an A301 variable or the crosstab of an A305 variable. -/
inductive PairData where
  | rank (dataByCat : List (List ℚ))
  | crosstab (tab : List (List ℚ))

/-- Result rows contributed by one (segment, variable) pair. -/
def pair_rows (F : TestFns) : PairData → List Row
  | .rank d => rank_rows F d
  | .crosstab t => chi_rows F t

/-- The engine's `results` list: the concatenation, pair by pair, of each
pair's rows (`results.append(...)` inside the loops of `stat_tests.py`). -/
def run_pairs (F : TestFns) (ps : List PairData) : List Row :=
  ps.flatMap (pair_rows F)

/-- The per-option percentages of `describe_multi` in `descriptive_stats.py`
lines 304-314: per sub-variable, `cnt = (coerced == 2).sum()`;
`total = sum(counts)`; `Prozent = round(c / total * 100, 2)`.  The division
is numpy integer-scalar division, so a zero `total` produces NaN (`none`),
not an exception. -/
def describe_multi_pct (counts : List ℕ) : List (Option ℚ) :=
  let total : ℚ := ((counts.sum : ℕ) : ℚ)
  counts.map (fun c => (npDiv ((c : ℕ) : ℚ) total).map (fun q => round2 (q * 100)))

/-- The percentages of `describe_A501` in `descriptive_stats.py` line 158
(after grouping): `(Häufigkeit / Häufigkeit.sum() * 100).round(1)`; pandas
Series division, so a zero sum produces NaN (`none`), not an exception. -/
def describe_A501_pct (counts : List ℕ) : List (Option ℚ) :=
  counts.map (fun c =>
    (npDiv ((c : ℕ) : ℚ) ((counts.sum : ℕ) : ℚ)).map (fun q => round1 (q * 100)))

/-- C1: for every A301-family variable and every filtered respondent subset,
the top-2-box percentage is `count(value ∈ {1,2}) / count(non-missing) * 100`,
it lies in `[0, 100]`, and it is `0` (not undefined) when there are no
non-missing values. -/
theorem top2pct_correct (xs : List (Option ℚ)) :
    0 ≤ top2pct xs ∧ top2pct xs ≤ 100 ∧
    (xs.filterMap id ≠ [] →
      top2pct xs = (((xs.filterMap id).countP (fun v => v == 1 || v == 2) : ℕ) : ℚ)
        / ((xs.filterMap id).length : ℚ) * 100) ∧
    (xs.filterMap id = [] → top2pct xs = 0) := by
  unfold top2pct
  by_cases h : (xs.filterMap id).length > 0
  · have hne : xs.filterMap id ≠ [] := by
      intro hcon
      rw [hcon] at h
      simp at h
    have hlpos : (0 : ℚ) < ((xs.filterMap id).length : ℚ) := by exact_mod_cast h
    have hcle : (((xs.filterMap id).countP (fun v => v == 1 || v == 2) : ℕ) : ℚ)
        ≤ ((xs.filterMap id).length : ℚ) := by
      exact_mod_cast List.countP_le_length _
    have hcnn : (0 : ℚ) ≤ (((xs.filterMap id).countP (fun v => v == 1 || v == 2) : ℕ) : ℚ) := by
      positivity
    simp only [if_pos h]
    refine ⟨?_, ?_, fun _ => trivial, fun hcon => absurd hcon hne⟩
    · exact mul_nonneg (div_nonneg hcnn hlpos.le) (by norm_num)
    · have hdiv : (((xs.filterMap id).countP (fun v => v == 1 || v == 2) : ℕ) : ℚ)
          / ((xs.filterMap id).length : ℚ) ≤ 1 := (div_le_one hlpos).mpr hcle
      calc (((xs.filterMap id).countP (fun v => v == 1 || v == 2) : ℕ) : ℚ)
            / ((xs.filterMap id).length : ℚ) * 100 ≤ 1 * 100 := by
              exact mul_le_mul_of_nonneg_right hdiv (by norm_num)
        _ = 100 := by norm_num
  · have he : xs.filterMap id = [] := by
      rcases List.eq_nil_or_concat (xs.filterMap id) with h0 | ⟨l, a, hl⟩
      · exact h0
      · exfalso
        apply h
        rw [hl]
        simp
    simp only [if_neg h]
    exact ⟨le_refl 0, by norm_num, fun hcon => absurd he hcon, fun _ => trivial⟩

/-- Witness for C1 on concrete subsets: `[1, 3, missing, 2]` gives
`2/3 * 100` and `[missing]` gives `0`. -/
theorem top2pct_correct_witness :
    top2pct [some 1, some 3, none, some 2] = 200 / 3 ∧ top2pct [none] = 0 := by
  constructor
  · have h := (top2pct_correct [some 1, some 3, none, some 2]).2.2.1 (by decide)
    rw [h]
    norm_num [List.countP_cons, List.filterMap_cons, beq_iff_eq]
  · exact (top2pct_correct [none]).2.2.2 (by decide)

theorem countSep_of_afterSep_eq_some :
    ∀ {s r : List Char}, afterSep s = some r → countSep s = countSep r + 1 := by
  intro s
  induction s with
  | nil => intro r h; simp [afterSep] at h
  | cons c rest ih =>
    intro r h
    by_cases hc : c = ':' ∧ rest.head? = some ' '
    · rw [afterSep, if_pos hc] at h
      obtain ⟨hc1, hc2⟩ := hc
      cases rest with
      | nil => simp at hc2
      | cons d rest' =>
        simp only [List.head?] at hc2
        have hd : d = ' ' := by
          injection hc2
        simp only [List.tail] at h
        have hr : r = rest' := by
          injection h with h'
          exact h'.symm
        subst hr hd hc1
        simp [countSep]
        omega
    · rw [afterSep, if_neg hc] at h
      rw [countSep, if_neg hc, ih h]
      omega

theorem afterSep_eq_none_of_countSep_eq_zero :
    ∀ {s : List Char}, countSep s = 0 → afterSep s = none := by
  intro s
  induction s with
  | nil => intro _; rfl
  | cons c rest ih =>
    intro h
    by_cases hc : c = ':' ∧ rest.head? = some ' '
    · rw [countSep, if_pos hc] at h
      omega
    · rw [countSep, if_neg hc] at h
      rw [afterSep, if_neg hc]
      exact ih (by omega)

/-- C4 counterexample: `normalize_label` is NOT idempotent on every string.
On `"a: b: c"` one application gives `"b: c"`, a second application gives
`"c"`. -/
theorem normalize_label_cex :
    normalize_label (normalize_label ("a: b: c".data)) ≠
      normalize_label ("a: b: c".data) ∧
    normalize_label ("a: b: c".data) = "b: c".data ∧
    normalize_label (normalize_label ("a: b: c".data)) = "c".data := by
  refine ⟨?_, by decide, by decide⟩
  decide

/-- C4 (amended): on every string that contains at most one occurrence of the
separator `": "`, `normalize_label` is idempotent; `"Group: Feature"`
normalizes to `"Feature"`; a string containing the separator maps to the
suffix after its first occurrence, and a string without the separator (and,
in the source, any non-string input) is returned unchanged. -/
theorem normalize_label_spec (s : List Char) (h : countSep s ≤ 1) :
    normalize_label (normalize_label s) = normalize_label s ∧
    normalize_label ("Group: Feature".data) = "Feature".data ∧
    (afterSep s = none → normalize_label s = s) ∧
    (∀ r, afterSep s = some r → normalize_label s = r) := by
  refine ⟨?_, by decide, ?_, ?_⟩
  · cases hs : afterSep s with
    | none =>
      have h1 : normalize_label s = s := by rw [normalize_label, hs]
      rw [h1]
      exact h1
    | some r =>
      have h1 : normalize_label s = r := by rw [normalize_label, hs]
      have hr : countSep r = 0 := by
        have := countSep_of_afterSep_eq_some hs
        omega
      have h2 : normalize_label r = r := by
        rw [normalize_label, afterSep_eq_none_of_countSep_eq_zero hr]
      rw [h1, h2]
  · intro hn
    rw [normalize_label, hn]
  · intro r hr
    rw [normalize_label, hr]

/-- Witness for C4 (amended) at the concrete label `"Group: Feature"`. -/
theorem normalize_label_spec_witness :
    normalize_label (normalize_label ("Group: Feature".data)) =
      normalize_label ("Group: Feature".data) :=
  (normalize_label_spec ("Group: Feature".data) (by decide)).1

theorem mem_uniqueFirstAux (l : List String) :
    ∀ (seen : List String) (x : String),
      x ∈ uniqueFirstAux seen l ↔ (x ∈ l ∧ x ∉ seen) := by
  induction l with
  | nil => simp [uniqueFirstAux]
  | cons y ys ih =>
    intro seen x
    rw [uniqueFirstAux]
    by_cases hy : y ∈ seen
    · rw [if_pos hy, ih]
      constructor
      · rintro ⟨hx, hns⟩
        exact ⟨List.mem_cons_of_mem _ hx, hns⟩
      · rintro ⟨hx, hns⟩
        rcases List.mem_cons.mp hx with rfl | hx'
        · exact absurd hy hns
        · exact ⟨hx', hns⟩
    · rw [if_neg hy]
      constructor
      · intro hm
        rcases List.mem_cons.mp hm with rfl | hm'
        · exact ⟨List.mem_cons_self _ _, hy⟩
        · have h2 := (ih (y :: seen) x).mp hm'
          exact ⟨List.mem_cons_of_mem _ h2.1,
            fun hs => h2.2 (List.mem_cons_of_mem _ hs)⟩
      · rintro ⟨hx, hns⟩
        rcases List.mem_cons.mp hx with rfl | hx'
        · exact List.mem_cons_self _ _
        · by_cases hxy : x = y
          · subst hxy
            exact List.mem_cons_self _ _
          · refine List.mem_cons_of_mem _ ((ih (y :: seen) x).mpr ⟨hx', ?_⟩)
            intro hs
            exact (List.mem_cons.mp hs).elim hxy hns

theorem mem_uniqueFirst (l : List String) (x : String) :
    x ∈ uniqueFirst l ↔ x ∈ l := by
  rw [uniqueFirst, mem_uniqueFirstAux]
  simp

/-- C8 counterexample: the Statistical Test Engine does NOT iterate
categories in lexicographic order.  On a column whose first row is `"b"` and
second row is `"a"` it visits `["b", "a"]`, which is not sorted. -/
theorem category_order_cex :
    catsStatTests ["b", "a"] = ["b", "a"] ∧
    ¬ List.Sorted (· ≤ ·) (catsStatTests ["b", "a"]) := by
  have hval : catsStatTests ["b", "a"] = ["b", "a"] := by
    rw [catsStatTests, uniqueFirst]
    rw [uniqueFirstAux, if_neg (by simp)]
    rw [uniqueFirstAux, if_neg (by simp)]
    rw [uniqueFirstAux]
  refine ⟨hval, ?_⟩
  rw [hval]
  intro h
  have hba : ("b" : String) ≤ "a" :=
    List.rel_of_sorted_cons h _ (List.mem_singleton.mpr rfl)
  rw [String.le_iff_toList_le] at hba
  exact absurd hba (by decide)

/-- C8 (amended): the segment-breakdown analysis visits a segment's observed
categories in lexicographic order, while the Statistical Test Engine visits
them in order of first appearance in the column (deterministic for a fixed
input table, but not sorted); in both cases the visited categories are
exactly the values observed in the column. -/
theorem category_order_spec (col : List String) :
    List.Sorted (· ≤ ·) (catsSegment col) ∧
    (∀ x, x ∈ catsSegment col ↔ x ∈ col) ∧
    (∀ x, x ∈ catsStatTests col ↔ x ∈ col) := by
  refine ⟨List.sorted_insertionSort _ _, fun x => ?_, fun x => mem_uniqueFirst col x⟩
  rw [catsSegment, List.mem_insertionSort]
  exact mem_uniqueFirst col x

/-- C10: missing segment values are not dropped: `astype(str)` turns them
into the literal category `"nan"`, which shows up as its own category both in
the segment result tables and among the groups of the statistical tests. -/
theorem missing_as_nan_category (col : List (Option String))
    (vm : String → Option String) (h : none ∈ col) (hvm : vm nanLabel = none) :
    (astype_str col).length = col.length ∧
    nanLabel ∈ catsStatTests (astype_str col) ∧
    nanLabel ∈ catsSegment (mapFillna vm (astype_str col)) := by
  have h1 : nanLabel ∈ astype_str col := List.mem_map.mpr ⟨none, h, rfl⟩
  refine ⟨List.length_map _ _, (mem_uniqueFirst _ _).mpr h1, ?_⟩
  have h2 : nanLabel ∈ mapFillna vm (astype_str col) := by
    refine List.mem_map.mpr ⟨nanLabel, h1, ?_⟩
    rw [hvm]
    rfl
  rw [catsSegment, List.mem_insertionSort]
  exact (mem_uniqueFirst _ _).mpr h2

/-- Witness for C10 at the one-row column whose single cell is missing, with
an empty value map. -/
theorem missing_as_nan_category_witness :
    nanLabel ∈ catsStatTests (astype_str [none]) ∧
    nanLabel ∈ catsSegment (mapFillna (fun _ => none) (astype_str [none])) := by
  have h := missing_as_nan_category [none] (fun _ => none)
    (List.mem_singleton.mpr rfl) rfl
  exact ⟨h.2.1, h.2.2⟩

/-- C2 counterexample: with three observed categories of which exactly two
are non-empty for the variable, the engine runs Kruskal-Wallis (on two
groups), not the Mann-Whitney U test the claim demands. -/
theorem rank_test_dispatch_cex :
    nonEmptyCats [[(1 : ℚ)], [2], []] = 2 ∧
    (rank_rows ⟨id, fun _ _ => (0, 0), fun _ => (0, 0), fun _ => 0⟩
        [[(1 : ℚ)], [2], []]).map Row.testName = ["Kruskal-Wallis"] := by
  constructor
  · rfl
  · rw [rank_rows]
    norm_num

/-- C2 (amended): the engine dispatches on the number of OBSERVED categories,
not on the number of non-empty ones.  Mann-Whitney U runs exactly when the
segment has exactly two observed categories, both non-empty; Kruskal-Wallis
runs exactly when at least two categories are non-empty and the number of
observed categories differs from two (i.e. is at least three). -/
theorem rank_test_dispatch (F : TestFns) (d : List (List ℚ)) :
    ((rank_rows F d).map Row.testName = ["Mann-Whitney-U"] ↔
      (d.length = 2 ∧ nonEmptyCats d = 2)) ∧
    ((rank_rows F d).map Row.testName = ["Kruskal-Wallis"] ↔
      (2 ≤ nonEmptyCats d ∧ d.length ≠ 2)) := by
  have hle : (d.filter (fun g => g.length > 0)).length ≤ d.length :=
    List.length_filter_le _ _
  unfold rank_rows nonEmptyCats
  by_cases h1 : (d.filter (fun g => g.length > 0)).length < 2
  · simp only [if_pos h1, List.map_nil]
    constructor
    · constructor
      · intro hcon
        exact absurd hcon (by simp)
      · rintro ⟨-, h2⟩
        omega
    · constructor
      · intro hcon
        exact absurd hcon (by simp)
      · rintro ⟨h2, -⟩
        omega
  · simp only [if_neg h1]
    by_cases h2 : d.length = 2
    · simp only [if_pos h2, List.map_cons, List.map_nil]
      constructor
      · constructor
        · intro _
          exact ⟨h2, by omega⟩
        · intro _
          trivial
      · constructor
        · intro hcon
          exact absurd hcon (by decide)
        · rintro ⟨-, hne⟩
          exact absurd h2 hne
    · simp only [if_neg h2, List.map_cons, List.map_nil]
      constructor
      · constructor
        · intro hcon
          exact absurd hcon (by decide)
        · rintro ⟨hl, -⟩
          exact absurd hl h2
      · exact ⟨fun _ => ⟨by omega, h2⟩, fun _ => trivial⟩

/-- C5: the Mann-Whitney effect size computed by the code equals the spec's
formula `r = |z|/sqrt(n1+n2)`, `z = (U - n1*n2/2)/sqrt(n1*n2*(n1+n2+1)/12)`,
for every square-root function; the Kruskal-Wallis effect size is
not-a-number exactly when `n ≤ k`, and equals `(H - k + 1)/(n - k)`
otherwise.  (`stat_tests.py` rounds each effect size to 3 digits when writing
the row; per spec §4.4 that rounding is presentational and preserves NaN:
`Option.map round3` keeps `none` at `none`.) -/
theorem effect_size_formulas (s : ℚ → ℚ) (u h : ℚ) (n1 n2 k n : ℕ) :
    mwu_effect_r s u n1 n2 = mwu_effect_r_spec s u n1 n2 ∧
    (eta_sq h k n = none ↔ n ≤ k) ∧
    (k < n → eta_sq h k n = some ((h - (k : ℚ) + 1) / ((n : ℚ) - (k : ℚ)))) := by
  refine ⟨rfl, ?_, ?_⟩
  · constructor
    · intro hnone
      by_cases hnk : n > k
      · rw [eta_sq, if_pos hnk] at hnone
        exact absurd hnone (by simp)
      · omega
    · intro hle2
      rw [eta_sq, if_neg (by omega)]
  · intro hkn
    rw [eta_sq, if_pos hkn]

/-- Witness for C5 at `H = 5`, `k = 2` groups, `n = 4` values and at the
degenerate `n = k = 1`. -/
theorem effect_size_formulas_witness :
    eta_sq 5 2 4 = some ((5 - (2 : ℚ) + 1) / ((4 : ℚ) - (2 : ℚ))) ∧
    (eta_sq 5 1 1 = none ↔ 1 ≤ 1) :=
  ⟨(effect_size_formulas id 0 5 0 0 2 4).2.2 (by omega),
   (effect_size_formulas id 0 5 0 0 1 1).2.1⟩

/-- C6: `cramers_v` computes `sqrt((chi2/n)/min(rows-1, cols-1))` for every
table and every square-root function, and — for any square root fixing 0 and
1, as the real square root does — it is 1 on the perfectly associated table
`[[50,0],[0,50]]` and 0 on the independent table `[[25,25],[25,25]]`. -/
theorem cramers_v_correct (s : ℚ → ℚ) (h1 : s 1 = 1) (h0 : s 0 = 0) :
    (∀ tab, cramers_v s tab = cramers_v_spec_formula s tab) ∧
    cramers_v s [[50, 0], [0, 50]] = 1 ∧
    cramers_v s [[25, 25], [25, 25]] = 0 := by
  refine ⟨fun tab => ?_, ?_, ?_⟩
  · unfold cramers_v cramers_v_spec_formula
    rw [Nat.min_comm]
  · have harg : cramers_v s [[50, 0], [0, 50]] = s 1 := by
      unfold cramers_v
      norm_num [chiSq, tableTotal, colSums, ncols, nrows]
    rw [harg, h1]
  · have harg : cramers_v s [[25, 25], [25, 25]] = s 0 := by
      unfold cramers_v
      norm_num [chiSq, tableTotal, colSums, ncols, nrows]
    rw [harg, h0]

/-- Witness for C6 with the identity in place of the square root (which does
fix 0 and 1). -/
theorem cramers_v_correct_witness :
    cramers_v id [[50, 0], [0, 50]] = 1 ∧ cramers_v id [[25, 25], [25, 25]] = 0 :=
  ⟨(cramers_v_correct id rfl rfl).2.1, (cramers_v_correct id rfl rfl).2.2⟩

/-- C7: a (segment, variable) pair with fewer than two non-empty categories
(rank tests), or whose crosstab has fewer than 2 rows or fewer than 2
columns (chi-square), contributes exactly zero result rows — all functions
involved are total, so nothing is raised — and the engine's result list is
the pairwise concatenation, so the other pairs' rows are unaffected. -/
theorem degenerate_skip (F : TestFns) (d tab : List (List ℚ))
    (ps qs : List PairData) (p : PairData) :
    (rank_rows F d = [] ↔ nonEmptyCats d < 2) ∧
    (chi_rows F tab = [] ↔ (nrows tab < 2 ∨ ncols tab < 2)) ∧
    run_pairs F (ps ++ p :: qs) = run_pairs F ps ++ pair_rows F p ++ run_pairs F qs := by
  refine ⟨?_, ?_, ?_⟩
  · unfold rank_rows nonEmptyCats
    by_cases h1 : (d.filter (fun g => g.length > 0)).length < 2
    · simp [h1]
    · simp only [if_neg h1]
      by_cases h2 : d.length = 2 <;> simp [h2, h1]
  · unfold chi_rows
    by_cases h : nrows tab < 2 ∨ ncols tab < 2 <;> simp [h]
  · unfold run_pairs
    simp [List.flatMap_append, List.append_assoc]

/-- C3 counterexample: a multi-select distribution over a non-empty
respondent subset in which no option was ever selected has `total = 0`, and
its percentages are NaN — not the `0` the claim requires. -/
theorem zero_denominator_cex :
    describe_multi_pct [0, 0] = [none, none] ∧
    describe_multi_pct [0, 0] ≠ [some 0, some 0] := by
  have h : describe_multi_pct [0, 0] = [none, none] := by
    unfold describe_multi_pct npDiv
    norm_num
  exact ⟨h, by rw [h]; simp⟩

/-- C3 (amended): in the multi-select percentage computations a zero
denominator yields NaN for every entry — never a raised exception (the
embedded functions are total) — and not the `0` the claim states; only the
top-2-box computations (see C1) return 0 on an empty denominator. -/
theorem zero_denominator_nan (counts : List ℕ) (h : counts.sum = 0) :
    describe_multi_pct counts = List.replicate counts.length none ∧
    describe_A501_pct counts = List.replicate counts.length none := by
  have hz : ((counts.sum : ℕ) : ℚ) = 0 := by
    rw [h]
    norm_num
  constructor
  · unfold describe_multi_pct npDiv
    simp [hz]
  · unfold describe_A501_pct npDiv
    simp [hz]

/-- Witness for C3 (amended) at the concrete count list `[0, 0]`. -/
theorem zero_denominator_nan_witness :
    describe_A501_pct [0, 0] = List.replicate 2 none :=
  (zero_denominator_nan [0, 0] rfl).2

theorem filterMap_id_map_some {α β : Type} (l : List α) (f : α → β) :
    (l.map (fun c => some (f c))).filterMap id = l.map f := by
  induction l with
  | nil => rfl
  | cons a t ih => simp [ih]

theorem round2_sub_le (q : ℚ) : |round2 q - q| ≤ 1 / 200 := by
  unfold round2
  have hrw : ((round (q * 100) : ℤ) : ℚ) / 100 - q
      = (((round (q * 100) : ℤ) : ℚ) - q * 100) / 100 := by
    ring
  rw [hrw, abs_div]
  have h100 : |(100 : ℚ)| = 100 := by norm_num
  rw [h100]
  have h := abs_sub_round (q * 100)
  rw [abs_sub_comm] at h
  linarith

theorem sum_map_round2_sub_le (f : ℕ → ℚ) :
    ∀ (l : List ℕ),
      |(l.map (fun c => round2 (f c))).sum - (l.map f).sum| ≤ (l.length : ℚ) / 200 := by
  intro l
  induction l with
  | nil => simp
  | cons a t ih =>
    simp only [List.map_cons, List.sum_cons, List.length_cons]
    have h1 := round2_sub_le (f a)
    have hrw : round2 (f a) + (t.map (fun c => round2 (f c))).sum - (f a + (t.map f).sum)
        = (round2 (f a) - f a) + ((t.map (fun c => round2 (f c))).sum - (t.map f).sum) := by
      ring
    rw [hrw]
    calc |(round2 (f a) - f a) + ((t.map (fun c => round2 (f c))).sum - (t.map f).sum)|
        ≤ |round2 (f a) - f a| + |(t.map (fun c => round2 (f c))).sum - (t.map f).sum| :=
          abs_add _ _
      _ ≤ 1 / 200 + (t.length : ℚ) / 200 := add_le_add h1 ih
      _ = ((t.length : ℚ) + 1) / 200 := by ring
      _ = (((t.length + 1 : ℕ)) : ℚ) / 200 := by push_cast; ring

theorem sum_map_div_mul (T : ℚ) :
    ∀ (l : List ℕ),
      (l.map (fun c => ((c : ℕ) : ℚ) / T * 100)).sum = ((l.sum : ℕ) : ℚ) / T * 100 := by
  intro l
  induction l with
  | nil => simp
  | cons a t ih =>
    simp only [List.map_cons, List.sum_cons, ih]
    push_cast
    ring

/-- C9 (amended): for every multi-select distribution with at most 20
sub-variables (every family in this survey has at most 9) and a positive
number of total selections, the per-category percentages sum to 100 within
±0.1. -/
theorem multi_pct_sum_bounded (counts : List ℕ) (h1 : 0 < counts.sum)
    (h2 : counts.length ≤ 20) :
    |((describe_multi_pct counts).filterMap id).sum - 100| ≤ 1 / 10 := by
  have hTpos : (0 : ℚ) < ((counts.sum : ℕ) : ℚ) := by exact_mod_cast h1
  have hT : ((counts.sum : ℕ) : ℚ) ≠ 0 := ne_of_gt hTpos
  have hmap : describe_multi_pct counts
      = counts.map (fun c =>
          some (round2 (((c : ℕ) : ℚ) / ((counts.sum : ℕ) : ℚ) * 100))) := by
    unfold describe_multi_pct npDiv
    simp only [if_neg hT, Option.map_some']
  rw [hmap, filterMap_id_map_some]
  have hsum : (counts.map
      (fun c => ((c : ℕ) : ℚ) / ((counts.sum : ℕ) : ℚ) * 100)).sum = 100 := by
    rw [sum_map_div_mul, div_self hT, one_mul]
  have herr := sum_map_round2_sub_le
    (fun c => ((c : ℕ) : ℚ) / ((counts.sum : ℕ) : ℚ) * 100) counts
  rw [hsum] at herr
  have hlen : ((counts.length : ℕ) : ℚ) / 200 ≤ 1 / 10 := by
    have hc : ((counts.length : ℕ) : ℚ) ≤ 20 := by exact_mod_cast h2
    linarith
  exact le_trans herr hlen

/-- Witness for C9 (amended) at the two-option family with counts `[2, 2]`. -/
theorem multi_pct_sum_bounded_witness :
    |((describe_multi_pct [2, 2]).filterMap id).sum - 100| ≤ 1 / 10 :=
  multi_pct_sum_bounded [2, 2] (by decide) (by decide)

/-- C9 counterexample: with 24 sub-variables — 23 selected once and one
selected 19977 times out of 20000 total selections — each of the 23 rare
options rounds `0.005 %` up to `0.01 %` and the large option rounds
`99.885 %` to `99.89 %`, so the reported percentages sum to `100.12`,
outside the claimed ±0.1 tolerance (any tie-breaking rule for the rounding,
including Python's, overshoots: the 24 per-entry errors are each exactly
±0.005, so their sum is at least 0.11 in absolute value). -/
theorem multi_pct_sum_cex :
    0 < (List.replicate 23 1 ++ [19977] : List ℕ).sum ∧
    ¬ (|((describe_multi_pct (List.replicate 23 1 ++ [19977])).filterMap id).sum - 100|
        ≤ 1 / 10) := by
  constructor
  · decide
  · have hval : ((describe_multi_pct (List.replicate 23 1 ++ [19977])).filterMap id).sum
        = 10012 / 100 := by
      norm_num [describe_multi_pct, npDiv, round2, round_eq, List.replicate,
        List.filterMap_cons, id_eq]
    rw [hval]
    have habs : |(10012 : ℚ) / 100 - 100| = 3 / 25 := by
      rw [abs_of_nonneg (by norm_num)]
      norm_num
    rw [habs]
    norm_num
